import Mathlib

/-!
Verification of the uTLGBotLib response-processing core (src/utlgbotlib.cpp).

Buffers are modelled as `List Nat` of byte values; a C string is the prefix of
a buffer up to its first 0 byte.  Machine integers are modelled as `Nat` with
an explicit `% 2 ^ 64` where uint64 overflow matters.  The external jsmn
tokenizer (not part of this repository) is passed in as an abstract function
returning its element count and token array, exactly as `jsmn_parse` does.
Bounded loops are written with a structural counter holding the number of
remaining iterations, so every definition evaluates by kernel reduction.
-/

/-- `strlen`: number of bytes before the first 0 byte (the whole list when no
0 byte occurs, which models a string occupying the entire modelled region). -/
def cstrLen : List Nat → Nat
  | [] => 0
  | b :: bs => if b = 0 then 0 else cstrLen bs + 1

/-- `strncmp(a, b, n) == 0`: the first `n` bytes agree, where comparison stops
early when both strings reach a 0 byte.  Bytes past the end of the modelled
region read as 0, like the terminator that would sit there in C. -/
def strncmp_eq : Nat → List Nat → List Nat → Bool
  | 0, _, _ => true
  | n + 1, a, b =>
    if a.headD 0 = b.headD 0 then
      if a.headD 0 = 0 then true else strncmp_eq n a.tail b.tail
    else false

/-- The copy loop of `cstr_strncat` (utlgbotlib.cpp:1097-1106): with `fuel`
iterations left (`fuel = src_len - i`, so the C guard `i < src_len` is
`0 < fuel`), append `src[i]` at `dest[dest_len + i]` while the write index
stays at most `dest_max_size - 1`; on the first index past that bound write a
0 at `dest_max_size - 1` and stop with failure.  Returns the buffer, the loop
index at exit, and the `rc` flag. -/
def strncatLoop (dest_len dest_max_size : Nat) (src : List Nat) :
    Nat → Nat → List Nat → List Nat × Nat × Bool
  | 0, i, buf => (buf, i, true)
  | fuel + 1, i, buf =>
    if dest_max_size - 1 < dest_len + i then
      (buf.set (dest_max_size - 1) 0, i, false)
    else
      strncatLoop dest_len dest_max_size src fuel (i + 1)
        (buf.set (dest_len + i) (src.getD i 0))

/-- `cstr_strncat` (utlgbotlib.cpp:1090-1114): bounded append of `src_len`
bytes of `src` to the C string held in `dest`, then terminate at
`dest_max_size - 1` when `dest_len + i >= dest_max_size - 1` and at
`dest_len + i` otherwise.  Returns the final buffer and the `rc` flag. -/
def cstr_strncat (dest : List Nat) (dest_max_size : Nat) (src : List Nat)
    (src_len : Nat) : List Nat × Bool :=
  let dest_len := cstrLen dest
  let r := strncatLoop dest_len dest_max_size src src_len 0 dest
  if dest_max_size - 1 ≤ dest_len + r.2.1 then
    (r.1.set (dest_max_size - 1) 0, r.2.2)
  else
    (r.1.set (dest_len + r.2.1) 0, r.2.2)

/-- jsmn token kinds (jsmn.h, consumed by utlgbotlib.cpp). -/
inductive JsmnType
  | UNDEFINED
  | OBJECT
  | ARRAY
  | STRING
  | PRIMITIVE
  deriving DecidableEq, BEq

/-- A jsmn token: a tagged byte range `[start, end_)` into the parsed text
(`jsmntok_t`; the C field `end` is a reserved word in Lean). -/
structure Jsmntok where
  type : JsmnType
  start : Nat
  end_ : Nat
  deriving DecidableEq, BEq

/-- Default token used when reading `json_tokens[i]` out of range. -/
def dTok : Jsmntok := ⟨JsmnType.UNDEFINED, 0, 0⟩

/-- `json_parse_str` (utlgbotlib.cpp:952-978), parameterised by the external
jsmn tokenizer, which returns the signed element count and the filled token
array for the given text, length and token capacity.  A negative count, a
zero count, or a top-level token that is not an object all yield 0;
otherwise the positive count is returned. -/
def json_parse_str (jsmn_parse : List Nat → Nat → Nat → Int × List Jsmntok)
    (json_str : List Nat) (json_str_len : Nat) (json_tokens_len : Nat) :
    Nat × List Jsmntok :=
  let r := jsmn_parse json_str json_str_len json_tokens_len
  if r.1 < 0 then (0, r.2)
  else if r.1 = 0 then (0, r.2)
  else if (r.2.getD 0 dTok).type ≠ JsmnType.OBJECT then (0, r.2)
  else (r.1.toNat, r.2)

/-- The per-token test of `json_has_key` (utlgbotlib.cpp:984-999), mirroring
its chain of `continue` guards: the token is string-typed, its byte length
equals the key's `strlen`, and `strncmp` over that many bytes reports
equality. -/
def json_key_match (json_str key : List Nat) (t : Jsmntok) : Bool :=
  if t.type = JsmnType.STRING then
    if cstrLen key = t.end_ - t.start then
      strncmp_eq (t.end_ - t.start) (json_str.drop t.start) key
    else false
  else false

/-- The scan loop of `json_has_key`: with `fuel` iterations left
(`fuel = num_tokens - i`), return the current index on a match, else advance;
return 0 when the scan runs out. -/
def json_has_key_aux (json_str : List Nat) (json_tokens : List Jsmntok)
    (key : List Nat) : Nat → Nat → Nat
  | 0, _ => 0
  | fuel + 1, i =>
    if json_key_match json_str key (json_tokens.getD i dTok) then i
    else json_has_key_aux json_str json_tokens key fuel (i + 1)

/-- `json_has_key` (utlgbotlib.cpp:981-1004): scan the first `num_tokens`
tokens for the key, returning the first matching index or the sentinel 0. -/
def json_has_key (json_str : List Nat) (json_tokens : List Jsmntok)
    (num_tokens : Nat) (key : List Nat) : Nat :=
  json_has_key_aux json_str json_tokens key num_tokens 0

/-- `json_get_element_string` (utlgbotlib.cpp:1007-1023): clamp the token's
byte length to `converted_str_len`, clear the whole output region
(`memset`), then copy that many bytes from the token's start (`memcpy`).
The result models the output region of `converted_str_len` bytes. -/
def json_get_element_string (json_str : List Nat) (token : Jsmntok)
    (converted_str_len : Nat) : List Nat :=
  let value_len := token.end_ - token.start
  let value_len := if converted_str_len < value_len then converted_str_len
    else value_len
  (List.range converted_str_len).map
    (fun i => if i < value_len then json_str.getD (token.start + i) 0 else 0)

/-- Example document for witnesses: the seven bytes of a one-pair object
whose key is the single letter with byte value 97, with its jsmn tokens. -/
def exJs : List Nat := [123, 34, 97, 34, 58, 49, 125]

/-- Tokens of `exJs`: root object, key string at bytes `[2, 3)`, value. -/
def exToks : List Jsmntok :=
  [⟨JsmnType.OBJECT, 0, 7⟩, ⟨JsmnType.STRING, 2, 3⟩, ⟨JsmnType.PRIMITIVE, 5, 6⟩]

/-- The scan loop of `cstr_get_substr_pos_end` (utlgbotlib.cpp:1054-1065):
with `fuel` iterations left, while `i + substr_len <= str_len`, report
`i + substr_len` on an `strncmp` match at offset `i`, else advance.  The C
loop needs at most `str_len + 1` iterations, which is the fuel the wrapper
supplies. -/
def substrPosEndLoop (str substr : List Nat) (str_len substr_len : Nat) :
    Nat → Nat → Int
  | 0, _ => -1
  | fuel + 1, i =>
    if i + substr_len ≤ str_len then
      if strncmp_eq substr_len (str.drop i) substr then ((i + substr_len : Nat) : Int)
      else substrPosEndLoop str substr str_len substr_len fuel (i + 1)
    else -1

/-- `cstr_get_substr_pos_end` (utlgbotlib.cpp:1048-1068): position just past
the first occurrence of `substr` in the first `str_len` bytes of `str`, or
-1 when absent. -/
def cstr_get_substr_pos_end (str : List Nat) (str_len : Nat) (substr : List Nat)
    (substr_len : Nat) : Int :=
  substrPosEndLoop str substr str_len substr_len (str_len + 1) 0

/-- `cstr_rm_char` (utlgbotlib.cpp:1071-1087): compact the first `str_len`
bytes, keeping every byte other than `c_remove` in order, write a 0
terminator right after, and leave all later bytes unchanged. -/
def cstr_rm_char (str : List Nat) (str_len : Nat) (c_remove : Nat) : List Nat :=
  let kept := (str.take str_len).filter (fun b => b != c_remove)
  kept ++ [0] ++ str.drop (kept.length + 1)

/-- `memset(buf + a, 0, n)` restricted to the modelled region: bytes with
index in `[a, a + n)` become 0, all others keep their value.  (When the C
call's range runs past the modelled region — as it does in the failure
branches of `tlg_get`/`tlg_post`, which pass the full buffer capacity from
an already-advanced pointer — the out-of-region writes fall outside the
model.) -/
def memset0 (buf : List Nat) (a n : Nat) : List Nat :=
  (List.range buf.length).map
    (fun i => if a ≤ i ∧ i < a + n then 0 else buf.getD i 0)

/-- The in-place payload shift of `tlg_get`/`tlg_post` (utlgbotlib.cpp:
819-825 and 903-910): while `i < strlen(buf + p)` — recomputed against the
current buffer, as in C — copy byte `p + i` down to `i`; afterwards write a
0 terminator at the final `i`.  `fuel` bounds the iterations; the caller
passes `buf.length + 1`, which the loop can never exhaust. -/
def shiftLoop (p : Nat) : Nat → Nat → List Nat → List Nat
  | 0, _, buf => buf
  | fuel + 1, i, buf =>
    if i < cstrLen (buf.drop p) then
      shiftLoop p fuel (i + 1) (buf.set i (buf.getD (p + i) 0))
    else buf.set i 0

/-- Bytes of the separator literal between HTTP header and body. -/
def crlfcrlf : List Nat := [13, 10, 13, 10]

/-- Bytes of the `ok`-key marker literal searched in the response body. -/
def okKey : List Nat := [34, 111, 107, 34, 58]

/-- Bytes of the literal `true`. -/
def trueLit : List Nat := [116, 114, 117, 101]

/-- Bytes of the `result`-key marker literal. -/
def resultKey : List Nat := [34, 114, 101, 115, 117, 108, 116, 34, 58]

/-- The first unwrapping step of `tlg_get`/`tlg_post` (utlgbotlib.cpp:767 and
848): overwrite the last character of the received string with a 0. -/
def tlg_body (buffer : List Nat) : List Nat :=
  buffer.set (cstrLen buffer - 1) 0

/-- The response post-processing shared by `tlg_get` (utlgbotlib.cpp:766-827)
and `tlg_post` (utlgbotlib.cpp:847-912), after the transport call returned:
drop the last character; find the header/body separator, the `ok` marker,
the literal `true` and the `result` marker, clearing the buffer from the
current read position for `cap` bytes and failing when a step does not
match; finally shift the remaining payload down to offset 0 in place and
terminate it.  Returns the buffer and the success flag. -/
def tlg_response_unwrap (buffer : List Nat) (cap : Nat) : List Nat × Bool :=
  let b1 := tlg_body buffer
  let pos1 := cstr_get_substr_pos_end b1 (cstrLen b1) crlfcrlf 4
  if pos1 = -1 then (memset0 b1 0 cap, false)
  else
    let p1 := pos1.toNat
    let pos2 := cstr_get_substr_pos_end (b1.drop p1) (cstrLen (b1.drop p1)) okKey 5
    if pos2 = -1 then (memset0 b1 p1 cap, false)
    else
      let p2 := p1 + pos2.toNat
      if strncmp_eq 4 (b1.drop p2) trueLit = false then (memset0 b1 p2 cap, false)
      else
        let pos3 := cstr_get_substr_pos_end (b1.drop p2) (cstrLen (b1.drop p2))
          resultKey 9
        if pos3 = -1 then (memset0 b1 p2 cap, false)
        else
          let p3 := p2 + pos3.toNat
          (shiftLoop p3 (b1.length + 1) 0 b1, true)

/-- A success-path response for C3 with no trailing framing byte: the header
`HTTP/1.1 200 OK`, one further header line, the blank separator line, then
the body holding the envelope with `ok` true and the object result whose
fields are `id` 1 and `first_name` "B". -/
def ex3good : List Nat := [72, 84, 84, 80, 47, 49, 46, 49, 32, 50, 48, 48, 32,
  79, 75, 13, 10, 65, 58, 32, 98, 13, 10, 13, 10, 123, 34, 111, 107, 34, 58,
  116, 114, 117, 101, 44, 34, 114, 101, 115, 117, 108, 116, 34, 58, 123, 34,
  105, 100, 34, 58, 49, 44, 34, 102, 105, 114, 115, 116, 95, 110, 97, 109,
  101, 34, 58, 34, 66, 34, 125, 125]

/-- The same response followed by one extra framing byte (a newline), the
input shape the claim describes. -/
def ex3bad : List Nat := ex3good ++ [10]

/-- The bytes of the result payload the claim expects. -/
def exPayload : List Nat := [123, 34, 105, 100, 34, 58, 49, 44, 34, 102, 105,
  114, 115, 116, 95, 110, 97, 109, 101, 34, 58, 34, 66, 34, 125]

/-- A rejected response for C4: header, separator, then a body whose `ok`
value is the literal `false`. -/
def ex4 : List Nat := [72, 84, 84, 80, 47, 49, 46, 49, 32, 50, 48, 48, 32, 79,
  75, 13, 10, 13, 10, 123, 34, 111, 107, 34, 58, 102, 97, 108, 115, 101, 44,
  34, 100, 101, 115, 99, 114, 105, 112, 116, 105, 111, 110, 34, 58, 34, 120,
  34, 125]

/-- The compaction getUpdates applies to the response buffer before parsing
(utlgbotlib.cpp:409-423): remove every carriage return and newline from the
string, then — when at least 2 characters remain — blank a trailing right
bracket, blank a leading left bracket, and advance the read pointer by one.
Returns the buffer and the pointer offset. -/
def getUpdates_compact (buffer : List Nat) : List Nat × Nat :=
  let b1 := cstr_rm_char buffer (cstrLen buffer) 13
  let b2 := cstr_rm_char b1 (cstrLen b1) 10
  if 2 ≤ cstrLen b2 then
    let b3 := if b2.getD (cstrLen b2 - 1) 0 = 93 then b2.set (cstrLen b2 - 1) 0
      else b2
    let b4 := if b3.getD 0 0 = 91 then b3.set 0 0 else b3
    (b4, 1)
  else (b2, 0)

/-- The string getUpdates hands to the JSON parser: the compacted buffer
read from the advanced pointer. -/
def getUpdates_payload (buffer : List Nat) : List Nat :=
  ((getUpdates_compact buffer).1).drop (getUpdates_compact buffer).2

/-- Outcome of one getUpdates processing cycle after the transport call
(utlgbotlib.cpp:409-472): an empty payload yields no message; a tokenize
failure advances the poll offset and yields nothing; otherwise the cycle
continues into field extraction (utlgbotlib.cpp:474-745) and ends at
`return 1`. -/
inductive GetUpdatesStep
  | no_message
  | parse_fail (new_last : Nat)
  | parsed (num_elements : Nat) (toks : List Jsmntok)

/-- The decision flow of `getUpdates` from the compacted response to the
parse outcome (utlgbotlib.cpp:426-472), parameterised by the external jsmn
tokenizer and the token-array capacity `MAX_JSON_ELEMENTS`.  `last` is the
uint64 `_last_received_msg`; on a tokenize failure it is advanced by one in
uint64 arithmetic. -/
def getUpdates_process (jsmn_parse : List Nat → Nat → Nat → Int × List Jsmntok)
    (max_json_elements : Nat) (buffer : List Nat) (last : Nat) :
    GetUpdatesStep :=
  let p := getUpdates_payload buffer
  if p.getD 0 0 = 0 then GetUpdatesStep.no_message
  else
    let r := json_parse_str jsmn_parse p (cstrLen p) max_json_elements
    if r.1 = 0 then GetUpdatesStep.parse_fail ((last + 1) % 2 ^ 64)
    else GetUpdatesStep.parsed r.1 r.2

/-- The uint8 value `getUpdates` returns for each outcome: 0 for an empty
cycle or a tokenize failure (utlgbotlib.cpp:434 and 471), 1 once the
extraction phase runs to its end (utlgbotlib.cpp:745). -/
def getUpdates_return : GetUpdatesStep → Nat
  | GetUpdatesStep.no_message => 0
  | GetUpdatesStep.parse_fail _ => 0
  | GetUpdatesStep.parsed _ _ => 1

/-- The constructor's initial poll offset (utlgbotlib.cpp:79):
`_last_received_msg = UINT64_MAX`. -/
def uTLGBot_last_received_msg_init : Nat := 18446744073709551615

/-- The store of the `text` field (utlgbotlib.cpp:523):
`snprintf(received_msg.text, MAX_TEXT_LENGTH, "%s", value)` writes the first
`min (strlen value) (cap - 1)` bytes of the value followed by a 0
terminator into a field of capacity `cap`, leaving later bytes unchanged. -/
def getUpdates_store_text (field : List Nat) (cap : Nat)
    (value : List Nat) : List Nat :=
  if cap = 0 then field
  else
    let s := (value.take (cstrLen value)).take (cap - 1)
    s ++ [0] ++ field.drop (s.length + 1)

/-- The store of the nested-object string fields such as `from.id`
(utlgbotlib.cpp:552), `from.first_name` (utlgbotlib.cpp:583) and the `chat`
fields: `strncpy(field, value, cap)` writes, for each index below `cap`, the
value byte when it is before the value's terminator and 0 otherwise — with
no terminator at all when `strlen value >= cap`. -/
def getUpdates_store_strncpy (field value : List Nat) (cap : Nat) : List Nat :=
  ((List.range cap).map
    (fun i => if i < cstrLen value then value.getD i 0 else 0)) ++
  field.drop cap

/-- Writing inside the list and reading the same index yields the written value. -/
theorem getElem?_set_lt {l : List Nat} {i : Nat} {a : Nat} (h : i < l.length) :
    (l.set i a)[i]? = some a := by
  rw [List.getElem?_set_self', List.getElem?_eq_getElem h]
  rfl

/-- The append loop never changes the length of the destination buffer. -/
theorem strncatLoop_length (dl c : Nat) (src : List Nat) :
    ∀ fuel i buf, (strncatLoop dl c src fuel i buf).1.length = buf.length := by
  intro fuel
  induction fuel with
  | zero =>
    intro i buf
    rfl
  | succ fuel ih =>
    intro i buf
    rw [strncatLoop]
    by_cases hcc : c - 1 < dl + i
    · simp [hcc]
    · simp only [hcc, if_false]
      rw [ih]
      simp

/-- The append loop writes no byte at or beyond index `c` when `1 ≤ c`. -/
theorem strncatLoop_frame (dl c : Nat) (src : List Nat) (hc : 1 ≤ c) :
    ∀ fuel i buf j, c ≤ j →
      ((strncatLoop dl c src fuel i buf).1)[j]? = buf[j]? := by
  intro fuel
  induction fuel with
  | zero =>
    intro i buf j _
    rfl
  | succ fuel ih =>
    intro i buf j hj
    rw [strncatLoop]
    by_cases hcc : c - 1 < dl + i
    · simp only [hcc, if_true]
      exact List.getElem?_set_ne (by omega)
    · simp only [hcc, if_false]
      rw [ih _ _ _ hj]
      exact List.getElem?_set_ne (by omega)

/-- The append loop reports failure exactly when some copy index among the
remaining iterations would land past `c - 1`. -/
theorem strncatLoop_rc (dl c : Nat) (src : List Nat) :
    ∀ fuel i buf, ((strncatLoop dl c src fuel i buf).2.2 = false ↔
      ∃ j, i ≤ j ∧ j < i + fuel ∧ c - 1 < dl + j) := by
  intro fuel
  induction fuel with
  | zero =>
    intro i buf
    constructor
    · intro h
      exact absurd h (by simp [strncatLoop])
    · rintro ⟨j, h1, h2, _⟩
      omega
  | succ fuel ih =>
    intro i buf
    rw [strncatLoop]
    by_cases hcc : c - 1 < dl + i
    · simp only [hcc, if_true]
      constructor
      · intro _
        exact ⟨i, Nat.le_refl _, by omega, hcc⟩
      · intro _
        trivial
    · simp only [hcc, if_false]
      rw [ih]
      constructor
      · rintro ⟨j, h1, h2, h3⟩
        exact ⟨j, by omega, by omega, h3⟩
      · rintro ⟨j, h1, h2, h3⟩
        refine ⟨j, by omega, by omega, h3⟩

/-- When no copy index would pass the bound, the loop consumes all its
iterations and exits at index `i + fuel`. -/
theorem strncatLoop_complete (dl c : Nat) (src : List Nat) :
    ∀ fuel i buf, (∀ j, i ≤ j → j < i + fuel → dl + j ≤ c - 1) →
      (strncatLoop dl c src fuel i buf).2.1 = i + fuel := by
  intro fuel
  induction fuel with
  | zero =>
    intro i buf _
    rfl
  | succ fuel ih =>
    intro i buf hall
    rw [strncatLoop]
    have hcc : ¬ (c - 1 < dl + i) := by
      have := hall i (Nat.le_refl _) (by omega)
      omega
    simp only [hcc, if_false]
    rw [ih _ _ (fun j h1 h2 => hall j (by omega) (by omega))]
    omega

/-- C1: for every destination terminated within its capacity
`dest_max_size >= 1` and every source of length `src_len`, `cstr_strncat`
writes only to indices in `[0, dest_max_size)` (all other buffer positions
keep their previous contents, and the length is unchanged) and on return the
destination contains a 0 terminator at an index below `dest_max_size`. -/
theorem cstr_strncat_writes_bounded (dest src : List Nat)
    (dest_max_size src_len : Nat)
    (hcap : 1 ≤ dest_max_size) (hwf : dest_max_size ≤ dest.length)
    (hsrc : src_len ≤ src.length)
    (hterm : ∃ t, t < dest_max_size ∧ dest[t]? = some 0) :
    (cstr_strncat dest dest_max_size src src_len).1.length = dest.length ∧
    (∀ j, dest_max_size ≤ j →
      (cstr_strncat dest dest_max_size src src_len).1[j]? = dest[j]?) ∧
    (∃ k, k < dest_max_size ∧
      (cstr_strncat dest dest_max_size src src_len).1[k]? = some 0) := by
  have hlen := strncatLoop_length (cstrLen dest) dest_max_size src src_len 0 dest
  have hfr := strncatLoop_frame (cstrLen dest) dest_max_size src hcap src_len 0 dest
  unfold cstr_strncat
  by_cases hfin : dest_max_size - 1 ≤
      cstrLen dest + (strncatLoop (cstrLen dest) dest_max_size src src_len 0 dest).2.1
  · simp only [hfin, if_pos]
    refine ⟨by rw [List.length_set, hlen], ?_, ?_⟩
    · intro j hj
      rw [List.getElem?_set_ne (by omega)]
      exact hfr j hj
    · exact ⟨dest_max_size - 1, by omega, getElem?_set_lt (by rw [hlen]; omega)⟩
  · simp only [hfin, if_neg, ite_false]
    refine ⟨by rw [List.length_set, hlen], ?_, ?_⟩
    · intro j hj
      rw [List.getElem?_set_ne (by omega)]
      exact hfr j hj
    · refine ⟨cstrLen dest +
        (strncatLoop (cstrLen dest) dest_max_size src src_len 0 dest).2.1,
        by omega, getElem?_set_lt (by rw [hlen]; omega)⟩

/-- Witness for C1 at `dest = "a"` in a buffer of capacity 4 (one spare byte
beyond the capacity) and `src = "bcde"` of length 4 (a truncating call). -/
theorem cstr_strncat_writes_bounded_witness :
    (cstr_strncat [97, 0, 0, 0, 7] 4 [98, 99, 100, 101] 4).1.length = 5 ∧
    (cstr_strncat [97, 0, 0, 0, 7] 4 [98, 99, 100, 101] 4).1[4]? = some 7 ∧
    (∃ k, k < 4 ∧
      (cstr_strncat [97, 0, 0, 0, 7] 4 [98, 99, 100, 101] 4).1[k]? = some 0) := by
  have h := cstr_strncat_writes_bounded [97, 0, 0, 0, 7] [98, 99, 100, 101] 4 4
    (by decide) (by decide) (by decide) ⟨1, by decide, by decide⟩
  exact ⟨h.1, h.2.1 4 (by decide), h.2.2⟩

/-- C7 counterexample: with `dest` holding the 1-byte string "a" in a buffer
of capacity 4 and a 3-byte source, the full result exactly fills the
capacity; `cstr_strncat` returns `true` although the final source byte 100
was overwritten by the terminator, so not all `src_len` bytes were appended
unmodified.  The claimed equivalence between `rc = true` and a complete
append is therefore false at this input. -/
theorem cstr_strncat_exact_fill_true :
    (cstr_strncat [97, 0, 0, 0] 4 [98, 99, 100] 3).2 = true ∧
    (cstr_strncat [97, 0, 0, 0] 4 [98, 99, 100] 3).1 = [97, 98, 99, 0] ∧
    ((cstr_strncat [97, 0, 0, 0] 4 [98, 99, 100] 3).1)[3]? ≠ some 100 := by
  decide

/-- C7 as amended: `cstr_strncat` returns `false` exactly when
`strlen(dest) + src_len` strictly exceeds `dest_max_size`; in the exact-fill
case `strlen(dest) + src_len = dest_max_size` it returns `true` even though
the final buffer byte at `dest_max_size - 1` is the terminator rather than
the last source byte, so that truncation at an exact fill goes unreported. -/
theorem cstr_strncat_rc_iff (dest src : List Nat) (dest_max_size src_len : Nat)
    (hcap : 1 ≤ dest_max_size) (hwf : dest_max_size ≤ dest.length)
    (hterm : cstrLen dest < dest_max_size) :
    ((cstr_strncat dest dest_max_size src src_len).2 = false ↔
      dest_max_size < cstrLen dest + src_len) ∧
    (cstrLen dest + src_len = dest_max_size →
      (cstr_strncat dest dest_max_size src src_len).2 = true ∧
      (cstr_strncat dest dest_max_size src src_len).1[dest_max_size - 1]? =
        some 0) := by
  have hlen := strncatLoop_length (cstrLen dest) dest_max_size src src_len 0 dest
  have hrcp : (cstr_strncat dest dest_max_size src src_len).2 =
      (strncatLoop (cstrLen dest) dest_max_size src src_len 0 dest).2.2 := by
    unfold cstr_strncat
    by_cases hfin : dest_max_size - 1 ≤
        cstrLen dest + (strncatLoop (cstrLen dest) dest_max_size src src_len 0 dest).2.1
    · simp [hfin]
    · simp [hfin]
  constructor
  · rw [hrcp, strncatLoop_rc]
    constructor
    · rintro ⟨j, _, h2, h3⟩
      omega
    · intro hlt
      exact ⟨src_len - 1, by omega, by omega, by omega⟩
  · intro hfill
    have hidx := strncatLoop_complete (cstrLen dest) dest_max_size src src_len 0 dest
      (by intro j h1 h2; omega)
    have hrc : (strncatLoop (cstrLen dest) dest_max_size src src_len 0 dest).2.2 = true := by
      by_contra hfalse
      have := (strncatLoop_rc (cstrLen dest) dest_max_size src src_len 0 dest).mp
        (by revert hfalse
            cases (strncatLoop (cstrLen dest) dest_max_size src src_len 0 dest).2.2 <;> simp)
      rcases this with ⟨j, _, h2, h3⟩
      omega
    refine ⟨by rw [hrcp]; exact hrc, ?_⟩
    unfold cstr_strncat
    have hfin : dest_max_size - 1 ≤
        cstrLen dest + (strncatLoop (cstrLen dest) dest_max_size src src_len 0 dest).2.1 := by
      rw [hidx]; omega
    simp only [hfin, if_pos]
    exact getElem?_set_lt (by rw [hlen]; omega)

/-- Witness for C7's amended statement at the exact-fill input. -/
theorem cstr_strncat_rc_iff_witness :
    ¬ (4 < cstrLen [97, 0, 0, 0] + 3) ∧
    (cstr_strncat [97, 0, 0, 0] 4 [98, 99, 100] 3).2 = true ∧
    (cstr_strncat [97, 0, 0, 0] 4 [98, 99, 100] 3).1[3]? = some 0 := by
  have h := cstr_strncat_rc_iff [97, 0, 0, 0] [98, 99, 100] 4 3
    (by decide) (by decide) (by decide)
  have hfill := h.2 (by decide)
  exact ⟨by decide, hfill.1, hfill.2⟩

/-- Reading a tabulated list below its length yields the tabulated value. -/
theorem range_map_getElem? (f : Nat → Nat) {i n : Nat} (h : i < n) :
    ((List.range n).map f)[i]? = some (f i) := by
  rw [List.getElem?_map, List.getElem?_range h]
  rfl

/-- C8: `json_parse_str` returns 0 exactly when the tokenizer's signed count
is zero or negative (syntax error, or more tokens needed than the capacity
allows) or the top-level token is not an object; otherwise it returns the
tokenizer's positive count. -/
theorem json_parse_str_zero_iff
    (jsmn_parse : List Nat → Nat → Nat → Int × List Jsmntok)
    (s : List Nat) (len cap : Nat) :
    ((json_parse_str jsmn_parse s len cap).1 = 0 ↔
      (jsmn_parse s len cap).1 ≤ 0 ∨
      ((jsmn_parse s len cap).2.getD 0 dTok).type ≠ JsmnType.OBJECT) ∧
    (0 < (jsmn_parse s len cap).1 →
      ((jsmn_parse s len cap).2.getD 0 dTok).type = JsmnType.OBJECT →
      ((json_parse_str jsmn_parse s len cap).1 : Int) = (jsmn_parse s len cap).1 ∧
      0 < (json_parse_str jsmn_parse s len cap).1) := by
  simp only [json_parse_str]
  by_cases h1 : (jsmn_parse s len cap).1 < 0
  · rw [if_pos h1]
    exact ⟨⟨fun _ => Or.inl (by omega), fun _ => rfl⟩, fun hpos _ => by omega⟩
  · rw [if_neg h1]
    by_cases h2 : (jsmn_parse s len cap).1 = 0
    · rw [if_pos h2]
      exact ⟨⟨fun _ => Or.inl (by omega), fun _ => rfl⟩, fun hpos _ => by omega⟩
    · rw [if_neg h2]
      by_cases h3 : ((jsmn_parse s len cap).2.getD 0 dTok).type ≠ JsmnType.OBJECT
      · rw [if_pos h3]
        exact ⟨⟨fun _ => Or.inr h3, fun _ => rfl⟩, fun _ hobj => absurd hobj h3⟩
      · rw [if_neg h3]
        constructor
        · constructor
          · intro h0
            left
            omega
          · rintro (hle | hne)
            · omega
            · exact absurd hne h3
        · intro hpos _
          constructor
          · rw [Int.toNat_of_nonneg (by omega)]
          · omega

/-- Witness for C8 at a tokenizer reporting 2 elements with an object root,
and the same conclusion checked concretely. -/
theorem json_parse_str_zero_iff_witness :
    (0 : Int) <
      ((fun (_ : List Nat) (_ : Nat) (_ : Nat) =>
        ((2 : Int), [Jsmntok.mk JsmnType.OBJECT 0 7])) [] 0 0).1 ∧
    0 < (json_parse_str
      (fun _ _ _ => ((2 : Int), [Jsmntok.mk JsmnType.OBJECT 0 7])) [] 0 0).1 := by
  refine ⟨by decide, ?_⟩
  exact ((json_parse_str_zero_iff
    (fun _ _ _ => ((2 : Int), [Jsmntok.mk JsmnType.OBJECT 0 7])) [] 0 0).2
    (by decide) (by decide)).2

/-- The scan loop of `json_has_key`, started at an index `1 ≤ i`, returns 0
exactly when no token in its window matches, and otherwise returns the first
matching index in the window. -/
theorem json_has_key_aux_spec (js key : List Nat) (toks : List Jsmntok) :
    ∀ fuel i, 1 ≤ i →
      (json_has_key_aux js toks key fuel i = 0 →
        ∀ j, i ≤ j → j < i + fuel →
          json_key_match js key (toks.getD j dTok) = false) ∧
      (json_has_key_aux js toks key fuel i ≠ 0 →
        i ≤ json_has_key_aux js toks key fuel i ∧
        json_has_key_aux js toks key fuel i < i + fuel ∧
        json_key_match js key
          (toks.getD (json_has_key_aux js toks key fuel i) dTok) = true ∧
        ∀ j, i ≤ j → j < json_has_key_aux js toks key fuel i →
          json_key_match js key (toks.getD j dTok) = false) := by
  intro fuel
  induction fuel with
  | zero =>
    intro i hi
    refine ⟨fun _ j h1 h2 => by omega, fun hne => absurd rfl hne⟩
  | succ fuel ih =>
    intro i hi
    rw [json_has_key_aux]
    by_cases hm : json_key_match js key (toks.getD i dTok) = true
    · rw [if_pos hm]
      refine ⟨fun h0 => by omega, fun _ => ⟨Nat.le_refl _, by omega, hm, ?_⟩⟩
      intro j h1 h2
      omega
    · rw [if_neg hm]
      have hspec := ih (i + 1) (by omega)
      constructor
      · intro h0 j h1 h2
        by_cases hj : j = i
        · subst hj
          exact Bool.not_eq_true _ ▸ hm
        · exact hspec.1 h0 j (by omega) (by omega)
      · intro hne
        obtain ⟨ha, hb, hc, hd⟩ := hspec.2 hne
        refine ⟨by omega, by omega, hc, ?_⟩
        intro j h1 h2
        by_cases hj : j = i
        · subst hj
          exact Bool.not_eq_true _ ▸ hm
        · exact hd j (by omega) h2

/-- C6: when token 0 is the root object, `json_has_key` returns the smallest
index among the first `num_tokens` tokens that is string-typed with the
key's byte length and bytes (such an index is necessarily at least 1), and
the sentinel 0 when no token matches. -/
theorem json_has_key_first_match (js key : List Nat) (toks : List Jsmntok)
    (n : Nat) (h0 : (toks.getD 0 dTok).type = JsmnType.OBJECT) :
    (json_has_key js toks n key = 0 →
      ∀ j, j < n → json_key_match js key (toks.getD j dTok) = false) ∧
    (json_has_key js toks n key ≠ 0 →
      1 ≤ json_has_key js toks n key ∧ json_has_key js toks n key < n ∧
      json_key_match js key
        (toks.getD (json_has_key js toks n key) dTok) = true ∧
      ∀ j, j < json_has_key js toks n key →
        json_key_match js key (toks.getD j dTok) = false) := by
  have hm0 : json_key_match js key (toks.getD 0 dTok) = false := by
    unfold json_key_match
    rw [h0, if_neg (by decide)]
  unfold json_has_key
  cases n with
  | zero =>
    exact ⟨fun _ j h => by omega, fun hne => absurd rfl hne⟩
  | succ n =>
    rw [json_has_key_aux, if_neg (by rw [hm0]; exact Bool.false_ne_true)]
    simp only [Nat.zero_add]
    have hspec := json_has_key_aux_spec js key toks n 1 (Nat.le_refl _)
    constructor
    · intro hz j h1
      by_cases hj : j = 0
      · subst hj
        exact hm0
      · exact hspec.1 hz j (by omega) (by omega)
    · intro hne
      obtain ⟨ha, hb, hc, hd⟩ := hspec.2 hne
      refine ⟨ha, by omega, hc, ?_⟩
      intro j hj
      by_cases h : j = 0
      · subst h
        exact hm0
      · exact hd j (by omega) hj

/-- Witness for C6 on `exJs`: the key is found at index 1, the match is
genuine, and index 0 (the root) is not a match. -/
theorem json_has_key_first_match_witness :
    json_has_key exJs exToks 3 [97] = 1 ∧
    json_key_match exJs [97] (exToks.getD 1 dTok) = true ∧
    json_key_match exJs [97] (exToks.getD 0 dTok) = false := by
  have h := json_has_key_first_match exJs [97] exToks 3 (by decide)
  have hne : json_has_key exJs exToks 3 [97] ≠ 0 := by decide
  obtain ⟨-, -, hc, hd⟩ := h.2 hne
  have he : json_has_key exJs exToks 3 [97] = 1 := by decide
  rw [he] at hc
  refine ⟨he, hc, hd 0 (by rw [he]; decide)⟩

/-- C2 counterexample: a 2-byte token materialized into a capacity-2 output
fills the entire output with the source bytes and leaves no 0 terminator
within the capacity (its `strlen` equals the capacity), contradicting the
claim that the output is always terminated within `outCap` and truncated to
the longest fitting prefix of `outCap - 1` bytes. -/
theorem json_get_element_string_unterminated :
    json_get_element_string [97, 98] ⟨JsmnType.STRING, 0, 2⟩ 2 = [97, 98] ∧
    cstrLen (json_get_element_string [97, 98] ⟨JsmnType.STRING, 0, 2⟩ 2) = 2 := by
  decide

/-- C2 as amended: `json_get_element_string` yields exactly `outCap` bytes:
the first `min (end - start) outCap` bytes of the token's range (note the
clamp is at `outCap`, not `outCap - 1`), then zeros; a 0 terminator inside
the output is only guaranteed when the range is shorter than `outCap`, in
which case it sits right after the copied bytes. -/
theorem json_get_element_string_chars (json_str : List Nat) (t : Jsmntok)
    (outCap : Nat) (hst : t.start ≤ t.end_) (hend : t.end_ ≤ json_str.length) :
    (json_get_element_string json_str t outCap).length = outCap ∧
    (∀ i, i < min (t.end_ - t.start) outCap →
      (json_get_element_string json_str t outCap)[i]? = json_str[t.start + i]?) ∧
    (∀ i, min (t.end_ - t.start) outCap ≤ i → i < outCap →
      (json_get_element_string json_str t outCap)[i]? = some 0) ∧
    (t.end_ - t.start < outCap →
      (json_get_element_string json_str t outCap)[t.end_ - t.start]? = some 0) := by
  have hcl : (if outCap < t.end_ - t.start then outCap else t.end_ - t.start) =
      min (t.end_ - t.start) outCap := by
    by_cases h : outCap < t.end_ - t.start
    · rw [if_pos h]
      omega
    · rw [if_neg h]
      omega
  simp only [json_get_element_string, hcl]
  refine ⟨by rw [List.length_map, List.length_range], ?_, ?_, ?_⟩
  · intro i hi
    rw [range_map_getElem? _ (by omega), if_pos hi]
    have hlt : t.start + i < json_str.length := by omega
    rw [List.getElem?_eq_getElem hlt, List.getD_eq_getElem?_getD,
      List.getElem?_eq_getElem hlt]
    rfl
  · intro i h1 h2
    rw [range_map_getElem? _ h2, if_neg (by omega)]
  · intro hfit
    rw [range_map_getElem? _ hfit, if_neg (by omega)]

/-- Witness for C2's amended statement: a 3-byte token range copied into a
capacity-5 output keeps its bytes, zero-fills the rest and is terminated
right after the copied range. -/
theorem json_get_element_string_chars_witness :
    (json_get_element_string [97, 98, 99] ⟨JsmnType.STRING, 0, 3⟩ 5).length = 5 ∧
    (json_get_element_string [97, 98, 99] ⟨JsmnType.STRING, 0, 3⟩ 5)[0]? = some 97 ∧
    (json_get_element_string [97, 98, 99] ⟨JsmnType.STRING, 0, 3⟩ 5)[3]? = some 0 := by
  have h := json_get_element_string_chars [97, 98, 99] ⟨JsmnType.STRING, 0, 3⟩ 5
    (by decide) (by decide)
  refine ⟨h.1, ?_, h.2.2.2 (by decide)⟩
  rw [h.2.1 0 (by decide)]
  decide

/-- `memset0` preserves the buffer length. -/
theorem memset0_length (l : List Nat) (a n : Nat) :
    (memset0 l a n).length = l.length := by
  rw [memset0, List.length_map, List.length_range]

/-- `memset0` keeps every byte before the cleared range. -/
theorem memset0_getElem?_lt (l : List Nat) (a n j : Nat) (h : j < a)
    (hj : j < l.length) : (memset0 l a n)[j]? = l[j]? := by
  rw [memset0, range_map_getElem? _ hj, if_neg (by omega),
    List.getD_eq_getElem?_getD, List.getElem?_eq_getElem hj]
  rfl

/-- `memset0` zeroes every byte of the cleared range inside the buffer. -/
theorem memset0_getElem?_mid (l : List Nat) (a n j : Nat) (h1 : a ≤ j)
    (h2 : j < a + n) (hj : j < l.length) : (memset0 l a n)[j]? = some 0 := by
  rw [memset0, range_map_getElem? _ hj, if_pos ⟨h1, h2⟩]

/-- C3 counterexample: on the claimed input — the response followed by one
final framing byte — the last-character removal consumes the framing byte
instead of the envelope's closing brace, so the unwrapped buffer holds the
claimed payload with a spurious trailing brace: its string length is 26, not
25, and the byte after the claimed payload is 125 (the brace), not a
terminator. -/
theorem tlg_unwrap_framing_byte_trailing_brace :
    (tlg_response_unwrap ex3bad 72).2 = true ∧
    (tlg_response_unwrap ex3bad 72).1.take 25 = exPayload ∧
    (tlg_response_unwrap ex3bad 72).1.getD 25 0 = 125 ∧
    cstrLen (tlg_response_unwrap ex3bad 72).1 = 26 := by
  decide

/-- C3 as amended: on the response whose final byte is the envelope's
closing brace (no extra framing byte — the byte dropped by the unwrapping
step is that brace), the unwrap succeeds and leaves the buffer holding
exactly the result object at offset 0, terminated right after it, although
the source and destination of the in-place shift lie in the same buffer. -/
theorem tlg_unwrap_happy_path :
    (tlg_response_unwrap ex3good 71).2 = true ∧
    (tlg_response_unwrap ex3good 71).1.take 25 = exPayload ∧
    (tlg_response_unwrap ex3good 71).1.getD 25 0 = 0 ∧
    cstrLen (tlg_response_unwrap ex3good 71).1 = 25 := by
  decide

/-- C4 as amended: whenever the separator is found at `q1`, the `ok` marker
at relative position `q2` after it, and the bytes that follow are not the
literal `true`, the unwrap reports failure and clears `cap` bytes starting
at the `ok`-value position `q1 + q2` — the bytes before that position (the
transport header and the `ok` marker itself) keep their values, so the
buffer is not entirely cleared. -/
theorem tlg_unwrap_rejected_clears_tail (buffer : List Nat) (cap q1 q2 : Nat)
    (h1 : cstr_get_substr_pos_end (tlg_body buffer) (cstrLen (tlg_body buffer))
      crlfcrlf 4 = (q1 : Int))
    (h2 : cstr_get_substr_pos_end ((tlg_body buffer).drop q1)
      (cstrLen ((tlg_body buffer).drop q1)) okKey 5 = (q2 : Int))
    (h3 : strncmp_eq 4 ((tlg_body buffer).drop (q1 + q2)) trueLit = false) :
    (tlg_response_unwrap buffer cap).2 = false ∧
    (∀ j, j < q1 + q2 →
      (tlg_response_unwrap buffer cap).1[j]? = (tlg_body buffer)[j]?) ∧
    (∀ j, q1 + q2 ≤ j → j < q1 + q2 + cap → j < buffer.length →
      (tlg_response_unwrap buffer cap).1[j]? = some 0) := by
  have hbl : (tlg_body buffer).length = buffer.length := by
    rw [tlg_body, List.length_set]
  have hres : tlg_response_unwrap buffer cap =
      (memset0 (tlg_body buffer) (q1 + q2) cap, false) := by
    simp only [tlg_response_unwrap, h1, Int.toNat_ofNat]
    rw [if_neg (show ¬ ((q1 : Int) = -1) by omega)]
    simp only [h2, Int.toNat_ofNat]
    rw [if_neg (show ¬ ((q2 : Int) = -1) by omega)]
    simp only [h3]
    rw [if_pos trivial]
  rw [hres]
  refine ⟨rfl, ?_, ?_⟩
  · intro j hj
    by_cases hjl : j < (tlg_body buffer).length
    · exact memset0_getElem?_lt _ _ _ _ hj hjl
    · rw [List.getElem?_eq_none (by rw [memset0_length]; omega),
        List.getElem?_eq_none (by omega)]
  · intro j hj1 hj2 hj3
    exact memset0_getElem?_mid _ _ _ _ hj1 hj2 (by omega)

/-- C4 counterexample: on a response carrying `ok` `false`, the unwrap does
return failure, but byte 0 of the buffer still holds 72 (the letter H of the
HTTP header), so the entire response buffer is not cleared to zero. -/
theorem tlg_unwrap_rejected_prefix_kept :
    (tlg_response_unwrap ex4 49).2 = false ∧
    (tlg_response_unwrap ex4 49).1.getD 0 0 = 72 := by
  decide

/-- Witness for C4's amended statement on `ex4`: separator found at 19, `ok`
marker 6 bytes later, value not `true`; failure is reported, byte 0 keeps
the header byte 72, and byte 25 (inside the cleared tail) is zero. -/
theorem tlg_unwrap_rejected_clears_tail_witness :
    (tlg_response_unwrap ex4 49).2 = false ∧
    (tlg_response_unwrap ex4 49).1[0]? = some 72 ∧
    (tlg_response_unwrap ex4 49).1[25]? = some 0 := by
  have h := tlg_unwrap_rejected_clears_tail ex4 49 19 6
    (by decide) (by decide) (by decide)
  refine ⟨h.1, ?_, h.2.2 25 (by decide) (by decide) (by decide)⟩
  rw [h.2.1 0 (by decide)]
  decide

/-- C5: in any poll cycle whose compacted payload is nonempty but fails to
tokenize (`json_parse_str` returns 0), `getUpdates` advances the poll offset
`_last_received_msg` by exactly one (in uint64 arithmetic) and returns 0. -/
theorem getUpdates_parse_fail_advances
    (jsmn_parse : List Nat → Nat → Nat → Int × List Jsmntok)
    (max_json_elements : Nat) (buffer : List Nat) (last : Nat)
    (hne : (getUpdates_payload buffer).getD 0 0 ≠ 0)
    (hfail : (json_parse_str jsmn_parse (getUpdates_payload buffer)
      (cstrLen (getUpdates_payload buffer)) max_json_elements).1 = 0) :
    getUpdates_process jsmn_parse max_json_elements buffer last =
      GetUpdatesStep.parse_fail ((last + 1) % 2 ^ 64) ∧
    getUpdates_return
      (getUpdates_process jsmn_parse max_json_elements buffer last) = 0 ∧
    (last + 1 < 2 ^ 64 → (last + 1) % 2 ^ 64 = last + 1) := by
  have hp : getUpdates_process jsmn_parse max_json_elements buffer last =
      GetUpdatesStep.parse_fail ((last + 1) % 2 ^ 64) := by
    simp only [getUpdates_process]
    rw [if_neg hne, if_pos hfail]
  exact ⟨hp, by rw [hp]; rfl, fun h => Nat.mod_eq_of_lt h⟩

/-- Witness for C5 on a one-byte payload with a tokenizer reporting a syntax
error: the offset advances from 5 to 6 and the cycle returns 0. -/
theorem getUpdates_parse_fail_advances_witness :
    getUpdates_process (fun _ _ _ => ((-1 : Int), [])) 32 [120] 5 =
      GetUpdatesStep.parse_fail 6 ∧
    getUpdates_return
      (getUpdates_process (fun _ _ _ => ((-1 : Int), [])) 32 [120] 5) = 0 := by
  have h := getUpdates_parse_fail_advances (fun _ _ _ => ((-1 : Int), []))
    32 [120] 5 (by decide) (by decide)
  have h6 : (5 + 1) % 2 ^ 64 = 6 := h.2.2 (by norm_num)
  exact ⟨by rw [h.1, h6], h.2.1⟩

/-- C10: `_last_received_msg` starts at `UINT64_MAX = 18446744073709551615`
(the offset the very first getUpdates request formats into its body), every
advance is `+1` taken modulo `2 ^ 64`, and if the first response fails to
tokenize the offset wraps around to 0 for the next request. -/
theorem last_received_msg_wraps
    (jsmn_parse : List Nat → Nat → Nat → Int × List Jsmntok)
    (max_json_elements : Nat) (buffer : List Nat)
    (hne : (getUpdates_payload buffer).getD 0 0 ≠ 0)
    (hfail : (json_parse_str jsmn_parse (getUpdates_payload buffer)
      (cstrLen (getUpdates_payload buffer)) max_json_elements).1 = 0) :
    uTLGBot_last_received_msg_init = 2 ^ 64 - 1 ∧
    (uTLGBot_last_received_msg_init + 1) % 2 ^ 64 = 0 ∧
    getUpdates_process jsmn_parse max_json_elements buffer
      uTLGBot_last_received_msg_init = GetUpdatesStep.parse_fail 0 := by
  have hwrap : (uTLGBot_last_received_msg_init + 1) % 2 ^ 64 = 0 := by
    norm_num [uTLGBot_last_received_msg_init]
  refine ⟨by norm_num [uTLGBot_last_received_msg_init], hwrap, ?_⟩
  simp only [getUpdates_process]
  rw [if_neg hne, if_pos hfail, hwrap]

/-- Witness for C10 on the same failing cycle started from the initial
offset: the next requested offset is 0. -/
theorem last_received_msg_wraps_witness :
    getUpdates_process (fun _ _ _ => ((-1 : Int), [])) 32 [120]
      uTLGBot_last_received_msg_init = GetUpdatesStep.parse_fail 0 := by
  exact (last_received_msg_wraps (fun _ _ _ => ((-1 : Int), [])) 32 [120]
    (by decide) (by decide)).2.2

/-- The string length never exceeds the modelled region. -/
theorem cstrLen_le_length (l : List Nat) : cstrLen l ≤ l.length := by
  induction l with
  | nil => exact Nat.le_refl _
  | cons b bs ih =>
    rw [cstrLen]
    by_cases hb : b = 0
    · simp [hb]
    · rw [if_neg hb]
      simpa using ih

/-- Every byte strictly before the string length is nonzero. -/
theorem cstrLen_getD_ne_zero (l : List Nat) :
    ∀ k, k < cstrLen l → l.getD k 0 ≠ 0 := by
  induction l with
  | nil => intro k hk; rw [cstrLen] at hk; omega
  | cons b bs ih =>
    intro k hk
    rw [cstrLen] at hk
    by_cases hb : b = 0
    · rw [if_pos hb] at hk
      omega
    · rw [if_neg hb] at hk
      cases k with
      | zero => exact hb
      | succ k => exact ih k (by omega)

/-- C9 counterexample: storing the 4-byte value "ABCD" into a nested string
field of capacity 3 through `strncpy` leaves the field holding the three
bytes 65 66 67 with no terminator, not the claimed first `cap - 1`
characters followed by a 0 (which would be 65 66 0). -/
theorem strncpy_field_unterminated :
    getUpdates_store_strncpy [0, 0, 0] [65, 66, 67, 68, 0] 3 = [65, 66, 67] ∧
    getUpdates_store_strncpy [0, 0, 0] [65, 66, 67, 68, 0] 3 ≠ [65, 66, 0] := by
  decide

/-- C9 as amended: when a record field's string value does not fit its
declared capacity (`cap <= strlen value` with `1 <= cap`), the `text` field
— stored through `snprintf` — holds exactly the first `cap - 1` value bytes
followed by a 0 terminator and nothing past index `cap` changes, as the
claim states; but the nested-object string fields — stored through
`strncpy` — hold the first `cap` value bytes with no 0 terminator anywhere
inside the capacity. -/
theorem field_store_truncation (field v : List Nat) (cap : Nat)
    (h1 : 1 ≤ cap) (h2 : cap ≤ cstrLen v) :
    getUpdates_store_text field cap v =
      v.take (cap - 1) ++ [0] ++ field.drop cap ∧
    getUpdates_store_strncpy field v cap = v.take cap ++ field.drop cap ∧
    (∀ k, k < cap → (getUpdates_store_strncpy field v cap)[k]? ≠ some 0) := by
  have hvl : cstrLen v ≤ v.length := cstrLen_le_length v
  refine ⟨?_, ?_, ?_⟩
  · rw [getUpdates_store_text, if_neg (by omega)]
    have hs : (v.take (cstrLen v)).take (cap - 1) = v.take (cap - 1) := by
      rw [List.take_take, Nat.min_eq_left (by omega)]
    simp only [hs, List.length_take]
    rw [Nat.min_eq_left (by omega)]
    have hc1 : cap - 1 + 1 = cap := by omega
    rw [hc1]
  · rw [getUpdates_store_strncpy]
    have hmap : (List.range cap).map
        (fun i => if i < cstrLen v then v.getD i 0 else 0) = v.take cap := by
      apply List.ext_getElem?
      intro n
      by_cases hn : n < cap
      · rw [range_map_getElem? _ hn, if_pos (by omega), List.getElem?_take,
          if_pos hn, List.getD_eq_getElem?_getD,
          List.getElem?_eq_getElem (by omega)]
        rfl
      · rw [List.getElem?_eq_none
          (by rw [List.length_map, List.length_range]; omega),
          List.getElem?_eq_none
          (by rw [List.length_take]; omega)]
    rw [hmap]
  · intro k hk heq
    rw [getUpdates_store_strncpy, List.getElem?_append_left
      (by rw [List.length_map, List.length_range]; exact hk),
      range_map_getElem? _ hk, if_pos (by omega)] at heq
    exact cstrLen_getD_ne_zero v k (by omega) (Option.some_injective _ heq)

/-- Witness for C9's amended statement on the capacity-3 field and the
4-byte value "ABCD". -/
theorem field_store_truncation_witness :
    getUpdates_store_text [0, 0, 0] 3 [65, 66, 67, 68, 0] = [65, 66, 0] ∧
    getUpdates_store_strncpy [0, 0, 0] [65, 66, 67, 68, 0] 3 = [65, 66, 67] ∧
    (getUpdates_store_strncpy [0, 0, 0] [65, 66, 67, 68, 0] 3)[2]? ≠ some 0 := by
  have h := field_store_truncation [0, 0, 0] [65, 66, 67, 68, 0] 3
    (by decide) (by decide)
  refine ⟨?_, ?_, h.2.2 2 (by decide)⟩
  · rw [h.1]
    decide
  · rw [h.2.1]
    decide
